import Mathlib

/-!
Shallow embedding of the vector retrieval engine of the repository
(`rag_researcher/modules/vector_store.py` and `rag_researcher/modules/retriever.py`).

Modelling conventions:
* Python floats are modelled by `ℚ` wherever the code only adds, multiplies,
  divides and compares scores; the cosine-metric arithmetic (which needs square
  roots) is modelled over `ℝ` with `EuclideanSpace`.
* A document is the dict produced by the ingestion pipeline:
  keys `text`, `metadata`, `embedding`, plus the optional score keys the
  retrieval code attaches (`similarity_score`, `semantic_score`,
  `keyword_score`, `rerank_score`).  Optional fields model absent keys.
* `np.argsort` is modelled as a stable sort of the index range by score
  (numpy's tie order for its default sort on the small arrays exercised here is
  the stable one), and `np.argpartition(s, -k)[-k:]` as the last `k` entries of
  that stable order, which the subsequent in-block argsort leaves unchanged.
  Note that for `k = 0` the slice `[-0:]` is the whole array.
* Raising an exception is modelled by an error value; for mutating methods the
  error value carries the state of the object at the moment the exception
  escapes (`PyResult`).  Indexing a numpy array with the empty (float dtype)
  index array produced by `np.array([])` raises `IndexError`.
* External collaborators (the sentence-transformer embedder, the NLTK
  tokenizer and stop-word list, the cross-encoder reranker) are parameters:
  the semantic score vector, the tokenizer function, the stop-word list and
  the reranker scoring function are inputs of the embedded operations.
-/

/-- A scalar value stored in a document's `metadata` dict. -/
inductive Value where
  | vStr (s : String)
  | vInt (n : Int)
  | vRat (q : ℚ)
deriving DecidableEq

/-- A value sitting directly under a top-level key of a document dict
(the shapes that actually occur: strings, numbers, the metadata dict,
the embedding vector). -/
inductive TopVal where
  | str (s : String)
  | rat (q : ℚ)
  | dict (m : List (String × Value))
  | vec (v : List ℚ)
deriving DecidableEq

/-- An embedded document chunk: the dict with keys `text`, `metadata`,
`embedding` (absent when ingestion failed to attach one) and the optional
score keys the retrieval code attaches. -/
structure Doc where
  text : String
  metadata : List (String × Value)
  embedding : Option (List ℚ)
  similarity_score : Option ℚ := none
  semantic_score : Option ℚ := none
  keyword_score : Option ℚ := none
  rerank_score : Option ℚ := none
deriving DecidableEq

/-- The document dict with no keys populated; used as the (never reached)
default of index lookups. -/
def dfltDoc : Doc := { text := "", metadata := [], embedding := none }

/-- `doc.get('similarity_score', 0)`. -/
def simScoreD (d : Doc) : ℚ := d.similarity_score.getD 0

/-- `doc.get('keyword_score', 0)`. -/
def kwScoreD (d : Doc) : ℚ := d.keyword_score.getD 0

/-- `doc.get('rerank_score', 0)`. -/
def rerankScoreD (d : Doc) : ℚ := d.rerank_score.getD 0

/-- `doc[key]` over the top-level keys of a document dict (`None` = key
absent), as consulted by `VectorStore._apply_filters`. -/
def docGet (d : Doc) (k : String) : Option TopVal :=
  if k = "text" then some (.str d.text)
  else if k = "metadata" then some (.dict d.metadata)
  else if k = "embedding" then d.embedding.map .vec
  else if k = "similarity_score" then d.similarity_score.map .rat
  else if k = "semantic_score" then d.semantic_score.map .rat
  else if k = "keyword_score" then d.keyword_score.map .rat
  else if k = "rerank_score" then d.rerank_score.map .rat
  else none

/-- `VectorStore` state: the document list, the derived dense matrix
(`None` until the first successful rebuild) and the configured metric. -/
structure VectorStore where
  documents : List Doc
  embedding_matrix : Option (List (List ℚ))
  distance_metric : String
deriving DecidableEq

/-- The exceptions the embedded store operations can raise. -/
inductive StoreErr where
  | indexError
  | valueError
  | keyError
deriving DecidableEq

/-- Outcome of a Python method that may mutate its object and may raise:
`exn` carries the state of the object at the moment the exception escapes. -/
inductive PyResult (α : Type) where
  | ok (a : α)
  | exn (e : StoreErr) (state : α)
deriving DecidableEq

instance {ε α : Type} [DecidableEq ε] [DecidableEq α] : DecidableEq (Except ε α)
  | .error a, .error b =>
    if h : a = b then .isTrue (h ▸ rfl)
    else .isFalse (fun hc => h (Except.error.inj hc))
  | .error _, .ok _ => .isFalse (fun hc => Except.noConfusion hc)
  | .ok _, .error _ => .isFalse (fun hc => Except.noConfusion hc)
  | .ok a, .ok b =>
    if h : a = b then .isTrue (h ▸ rfl)
    else .isFalse (fun hc => h (Except.ok.inj hc))

/-- `scores[i]` (always accessed in range by the code paths modelled). -/
def scoreAt (scores : List ℚ) (i : ℕ) : ℚ := scores.getD i 0

/-- The total preorder `np.argsort` sorts the index range by: ascending
score, ties by ascending index (the stable order). -/
abbrev argsortLe (scores : List ℚ) (a b : ℕ) : Prop :=
  scoreAt scores a < scoreAt scores b ∨ (scoreAt scores a = scoreAt scores b ∧ a ≤ b)

instance (scores : List ℚ) : IsTotal ℕ (argsortLe scores) :=
  ⟨fun a b => by
    rcases lt_trichotomy (scoreAt scores a) (scoreAt scores b) with h | h | h
    · exact Or.inl (Or.inl h)
    · rcases Nat.le_total a b with hab | hab
      · exact Or.inl (Or.inr ⟨h, hab⟩)
      · exact Or.inr (Or.inr ⟨h.symm, hab⟩)
    · exact Or.inr (Or.inl h)⟩

instance (scores : List ℚ) : IsTrans ℕ (argsortLe scores) :=
  ⟨fun a b c hab hbc => by
    rcases hab with h1 | ⟨h1, h1'⟩ <;> rcases hbc with h2 | ⟨h2, h2'⟩
    · exact Or.inl (h1.trans h2)
    · exact Or.inl (h2 ▸ h1)
    · exact Or.inl (h1 ▸ h2)
    · exact Or.inr ⟨h1.trans h2, h1'.trans h2'⟩⟩

/-- `np.argsort(scores)`: the index range sorted ascending by score
(stable, hence ties ascending by index). -/
def argsort (scores : List ℚ) : List ℕ :=
  List.insertionSort (argsortLe scores) (List.range scores.length)

/-- Lines 160-165 of `vector_store.py`: the index order of the top-k
selection.  When `len(scores) <= top_k`, `np.argsort(scores)[::-1]`;
otherwise `np.argpartition(scores, -top_k)[-top_k:]` re-sorted descending,
i.e. the last `top_k` entries of the ascending argsort, reversed.  The
slice `[-0:]` is the whole array, so `top_k = 0` keeps every index. -/
def topKIndices (scores : List ℚ) (top_k : ℕ) : List ℕ :=
  if scores.length ≤ top_k then
    (argsort scores).reverse
  else if top_k = 0 then
    (argsort scores).reverse
  else
    ((argsort scores).drop (scores.length - top_k)).reverse

/-- `doc.copy(); doc['similarity_score'] = float(score)`. -/
def setSimilarityScore (d : Doc) (s : ℚ) : Doc := { d with similarity_score := some s }

/-- The inner loop of `VectorStore._apply_filters`: a document matches when
every filter key is a present top-level key of the doc dict with an equal
value. -/
def matchesFilter (d : Doc) (filter_dict : List (String × TopVal)) : Bool :=
  filter_dict.all (fun kv => docGet d kv.1 == some kv.2)

/-- `VectorStore._apply_filters`: indices of the documents whose top-level
dict entries satisfy every filter predicate. -/
def applyFilters (documents : List Doc) (filter_dict : List (String × TopVal)) : List ℕ :=
  (List.range documents.length).filter (fun i => matchesFilter (documents.getD i dfltDoc) filter_dict)

/-- The metric strings the `similarity_search` dispatch accepts. -/
def supportedMetric (m : String) : Bool :=
  m == "cosine" || m == "euclidean" || m == "dot"

/-- Lines 167-176 of `vector_store.py`: assemble the result list from the
top-k positions, mapping each position through `doc_indices` and attaching
the similarity score to a fresh top-level copy of the document. -/
def searchBuild (documents : List Doc) (scores : List ℚ) (doc_indices : List ℕ)
    (top_k : ℕ) : List Doc :=
  (topKIndices scores top_k).map (fun idx =>
    setSimilarityScore (documents.getD (doc_indices.getD idx 0) dfltDoc) (scoreAt scores idx))

/-- `VectorStore.similarity_search`.  The metric arithmetic is abstracted
into the score vector `scores` (one score per stored document, computed by
the dispatch on lines 129-150); the selection, filtering and result
assembly are embedded faithfully.  An empty store or missing matrix yields
`[]`; an unsupported metric yields `[]`; a truthy filter dict that matches
no document makes `scores[filtered_indices]` raise `IndexError`, because
`np.array([])` has float dtype. -/
def similaritySearch (store : VectorStore) (scores : List ℚ) (top_k : ℕ)
    (filter_dict : Option (List (String × TopVal))) : Except StoreErr (List Doc) :=
  if store.documents.isEmpty || store.embedding_matrix.isNone then .ok []
  else if !supportedMetric store.distance_metric then .ok []
  else
    match filter_dict with
    | none => .ok (searchBuild store.documents scores (List.range store.documents.length) top_k)
    | some fd =>
      if fd.isEmpty then
        .ok (searchBuild store.documents scores (List.range store.documents.length) top_k)
      else
        let filtered_indices := applyFilters store.documents fd
        if filtered_indices.isEmpty then .error .indexError
        else .ok (searchBuild store.documents (filtered_indices.map (scoreAt scores))
          filtered_indices top_k)

/-- The state-passing view of `similarity_search`: the method body assigns
only to locals, so the post state is the pre state. -/
def similaritySearchST (store : VectorStore) (scores : List ℚ) (top_k : ℕ)
    (filter_dict : Option (List (String × TopVal))) :
    Except StoreErr (List Doc) × VectorStore :=
  (similaritySearch store scores top_k filter_dict, store)

/-- `np.vstack(rows)`: succeeds when the (nonempty) rows all share one
length, otherwise raises `ValueError`. -/
def vstack (rows : List (List ℚ)) : Option (List (List ℚ)) :=
  match rows with
  | [] => none
  | r :: rs => if rs.all (fun x => x.length == r.length) then some (r :: rs) else none

/-- `VectorStore._update_embedding_matrix`: no documents clears the matrix;
otherwise the matrix is rebuilt from the embeddings, raising `KeyError` for
a document without an `embedding` key and `ValueError` for ragged rows,
leaving the matrix unchanged in those cases. -/
def updateEmbeddingMatrix (store : VectorStore) : PyResult VectorStore :=
  if store.documents.isEmpty then .ok { store with embedding_matrix := none }
  else
    match store.documents.mapM (fun d => d.embedding) with
    | none => .exn .keyError store
    | some embs =>
      match vstack embs with
      | some m => .ok { store with embedding_matrix := some m }
      | none => .exn .valueError store

/-- `VectorStore.add_documents`: an empty batch returns immediately; a batch
containing a document without an `embedding` key logs and returns with the
store untouched; otherwise the batch is appended to `documents` and the
matrix rebuild runs (so a rebuild failure escapes with the document
sequence already extended). -/
def addDocuments (store : VectorStore) (documents : List Doc) : PyResult VectorStore :=
  if documents.isEmpty then .ok store
  else if documents.any (fun d => d.embedding.isNone) then .ok store
  else updateEmbeddingMatrix { store with documents := store.documents ++ documents }

/-- The data `VectorStore.save` pickles: the document list and the metric. -/
structure Snapshot where
  documents : List Doc
  distance_metric : String
deriving DecidableEq

/-- `VectorStore.save` (pickling modelled as the identity on the data). -/
def save (store : VectorStore) : Snapshot :=
  { documents := store.documents, distance_metric := store.distance_metric }

/-- `VectorStore.load` on an existing snapshot file: a fresh store with the
unpickled metric and documents, followed by `_update_embedding_matrix`. -/
def load (snap : Snapshot) : PyResult VectorStore :=
  updateEmbeddingMatrix
    { documents := snap.documents, embedding_matrix := none,
      distance_metric := snap.distance_metric }

/-- All documents carry an embedding and all embeddings share one length
(the store dimension invariant maintained by successful appends). -/
def embeddingsAligned : List Doc → Bool
  | [] => true
  | d :: ds =>
    match d.embedding with
    | none => false
    | some e => ds.all (fun x =>
        match x.embedding with
        | none => false
        | some e2 => e2.length == e.length)

/-! ### Cosine metric (lines 129-138 of `vector_store.py`), over `ℝ` -/

/-- The clamp constant `1e-10` used for `np.maximum(matrix_norms, 1e-10)`. -/
noncomputable def normEps : ℝ := 1 / 10 ^ 10

/-- Query normalization: divide by the L2 norm when it is positive,
otherwise leave the query as is. -/
noncomputable def normalizeQuery {n : ℕ} (q : EuclideanSpace ℝ (Fin n)) :
    EuclideanSpace ℝ (Fin n) :=
  if 0 < ‖q‖ then ‖q‖⁻¹ • q else q

/-- Row normalization: divide a stored vector by `max(‖v‖, 1e-10)`. -/
noncomputable def clampedNormalize {n : ℕ} (v : EuclideanSpace ℝ (Fin n)) :
    EuclideanSpace ℝ (Fin n) :=
  (max ‖v‖ normEps)⁻¹ • v

/-- The cosine-metric semantic score of one stored row against the query:
`np.dot(normalized_matrix, query_embedding)` componentwise. -/
noncomputable def cosineScore {n : ℕ} (v q : EuclideanSpace ℝ (Fin n)) : ℝ :=
  (inner (clampedNormalize v) (normalizeQuery q) : ℝ)

/-! ### Lexical scoring (`Retriever._perform_keyword_search`) -/

/-- `str.lower()` (characterwise, as for the ASCII tokens exercised). -/
def strLower (s : String) : String :=
  String.mk (s.toList.map Char.toLower)

/-- `str.isalnum()`: nonempty and every character alphanumeric. -/
def isAlnumStr (s : String) : Bool :=
  !s.isEmpty && s.toList.all Char.isAlphanum

/-- The token list comprehension: keep tokens that are alphanumeric and whose
lower-casing is not a stop word, and lower-case the survivors. -/
def filterTokens (stop_words : List String) (raw : List String) : List String :=
  (raw.filter (fun t => isAlnumStr t && !stop_words.contains (strLower t))).map
    (fun t => strLower t)

/-- Lines 179-190 of `retriever.py`: walk the *query token list* (one
contribution per occurrence), adding `count(token in doc) / len(doc_tokens)`
whenever the token is a key of the document counter, then divide by the
number of query tokens (0 when there are none). -/
def keywordScore (query_tokens doc_tokens : List String) : ℚ :=
  let score := query_tokens.foldl (fun acc token =>
    if doc_tokens.contains token then
      acc + (if doc_tokens.length > 0 then (doc_tokens.count token : ℚ) / doc_tokens.length else 0)
    else acc) 0
  if query_tokens.length > 0 then score / query_tokens.length else 0

/-- Python's `sorted(l, key=key, reverse=True)`: insert after every element
with a key `≥` the inserted key never fires; concretely, place `x` before
the first element whose key is `≤ key x`, which combined with `foldr`
reproduces the stable descending sort. -/
def insertByDesc {α : Type} (key : α → ℚ) (x : α) : List α → List α
  | [] => [x]
  | y :: ys => if key y ≤ key x then x :: y :: ys else y :: insertByDesc key x ys

/-- Stable descending sort by a rational key (Python `sorted` with
`reverse=True`). -/
def stableSortDescBy {α : Type} (key : α → ℚ) (l : List α) : List α :=
  l.foldr (insertByDesc key) []

/-- `Retriever._perform_keyword_search`: the NLTK `word_tokenize`
collaborator is the parameter `tokenize` and the stop-word corpus the
parameter `stop_words`.  Each document receives a `keyword_score` on a
top-level copy; the copies are sorted stably descending by that score and
truncated to `top_k`. -/
def performKeywordSearch (keyword_search_available : Bool)
    (tokenize : String → List String) (stop_words : List String)
    (query : String) (documents : List Doc) (top_k : ℕ) : List Doc :=
  if !keyword_search_available || documents.isEmpty then []
  else
    let query_tokens := filterTokens stop_words (tokenize query)
    let results := documents.map (fun doc =>
      let s := keywordScore query_tokens (filterTokens stop_words (tokenize doc.text))
      { doc with keyword_score := some s })
    (stableSortDescBy kwScoreD results).take top_k

/-! ### Reranking (`Retriever._rerank_results`) -/

/-- `Retriever._rerank_results`.  The cross-encoder collaborator is the
parameter `rerank_fn`: `none` models the `except` path (the model call
raising); `reranker_available` models the truthiness of `self.reranker`.
When disabled, unavailable, given no results, or on an exception, the input
is returned truncated to `top_k` in its pre-rerank order. -/
def rerankResults (reranking_enabled reranker_available : Bool)
    (rerank_fn : Option (String → String → ℚ)) (query : String)
    (results : List Doc) (top_k : ℕ) : List Doc :=
  if !reranking_enabled || !reranker_available || results.isEmpty then
    results.take top_k
  else
    match rerank_fn with
    | none => results.take top_k
    | some f =>
      (stableSortDescBy rerankScoreD
        (results.map (fun d => { d with rerank_score := some (f query d.text) }))).take top_k

/-! ### Hybrid fusion and orchestration (`Retriever.retrieve`) -/

/-- The identity key of lines 315/321/332:
`doc.get('metadata', {}).get('source', '') + str(doc.get('metadata', {}).get('chunk_id', ''))`. -/
def valueText : Value → String
  | .vStr s => s
  | .vInt n => toString n
  | .vRat q => toString q

/-- `metadata.get(key, '')` rendered by `str(...)` (`''` when absent). -/
def metaText (metadata : List (String × Value)) (key : String) : String :=
  match metadata.lookup key with
  | some v => valueText v
  | none => ""

/-- The fusion identity key of a document. -/
def docId (d : Doc) : String :=
  metaText d.metadata "source" ++ metaText d.metadata "chunk_id"

/-- A Python dict built by assignment in list order (`last write wins`),
read back with `.get(id, 0)`. -/
def lastScore (get : Doc → ℚ) (results : List Doc) (id : String) : ℚ :=
  match results.reverse.find? (fun d => docId d == id) with
  | some d => get d
  | none => 0

/-- Lines 324-349: the per-key fusion loop.  The key set iteration order of
the Python `set` is unspecified; it is modelled as first-appearance order
over the concatenated key lists.  For each key, the first document bearing
it in `semantic_results + keyword_results` is copied and given the fused
`similarity_score` plus the two component scores. -/
def fuseResults (weight : ℚ) (semantic_results keyword_results : List Doc) : List Doc :=
  (((semantic_results ++ keyword_results).map docId).eraseDups).filterMap (fun id =>
    ((semantic_results ++ keyword_results).find? (fun d => docId d == id)).map (fun d =>
      { d with
        similarity_score := some (weight * lastScore simScoreD semantic_results id +
          (1 - weight) * lastScore kwScoreD keyword_results id),
        semantic_score := some (lastScore simScoreD semantic_results id),
        keyword_score := some (lastScore kwScoreD keyword_results id) }))

/-- Lines 351-353: fused candidates sorted descending by combined score. -/
def hybridCombine (weight : ℚ) (semantic_results keyword_results : List Doc) : List Doc :=
  stableSortDescBy simScoreD (fuseResults weight semantic_results keyword_results)

/-- Lines 361-364: drop candidates below the threshold; a non-positive
threshold leaves the list untouched. -/
def thresholdFilter (similarity_threshold : ℚ) (results : List Doc) : List Doc :=
  if 0 < similarity_threshold then
    results.filter (fun d => similarity_threshold ≤ simScoreD d)
  else results

/-- Lines 300-359: the hybrid stage.  When enabled and the keyword
collaborator is available and the semantic stage returned anything, fuse
with the keyword ranking over the whole store (nonempty keyword output),
else pass the semantic results through. -/
def hybridStage (hybrid_search_enabled keyword_search_available : Bool)
    (tokenize : String → List String) (stop_words : List String)
    (weight : ℚ) (query : String) (store_documents : List Doc)
    (semantic_results : List Doc) (initial_top_k : ℕ) : List Doc :=
  if hybrid_search_enabled && keyword_search_available && !semantic_results.isEmpty then
    let keyword_results :=
      performKeywordSearch keyword_search_available tokenize stop_words query
        store_documents initial_top_k
    if !keyword_results.isEmpty then
      (hybridCombine weight semantic_results keyword_results).take initial_top_k
    else semantic_results
  else semantic_results

/-- Lines 361-371: threshold filter, then either the rerank step or plain
truncation to `top_k`. -/
def retrieveTail (reranking_enabled reranker_available : Bool)
    (rerank_fn : Option (String → String → ℚ)) (query : String)
    (top_k : ℕ) (similarity_threshold : ℚ) (results : List Doc) : List Doc :=
  let results := thresholdFilter similarity_threshold results
  if reranking_enabled && reranker_available && !results.isEmpty then
    rerankResults reranking_enabled reranker_available rerank_fn query results top_k
  else results.take top_k

/-- `Retriever.retrieve` after parameter resolution.  The embedder
collaborator is abstracted into the semantic score vector `sem_scores`
consumed by `similaritySearch`; the pool is tripled when reranking is
enabled; the hybrid, threshold and rerank stages follow in source order.
A semantic-stage exception is fatal and propagates. -/
def retrieve (reranking_enabled hybrid_search_enabled : Bool)
    (keyword_search_available reranker_available : Bool)
    (tokenize : String → List String) (stop_words : List String)
    (rerank_fn : Option (String → String → ℚ))
    (store : VectorStore) (sem_scores : List ℚ) (query : String)
    (top_k : ℕ) (similarity_threshold : ℚ) (hybrid_search_weight : ℚ)
    (filter_dict : Option (List (String × TopVal))) : Except StoreErr (List Doc) :=
  let initial_top_k := if reranking_enabled then top_k * 3 else top_k
  match similaritySearch store sem_scores initial_top_k filter_dict with
  | .error e => .error e
  | .ok semantic_results =>
    let results := hybridStage hybrid_search_enabled keyword_search_available
      tokenize stop_words hybrid_search_weight query store.documents
      semantic_results initial_top_k
    .ok (retrieveTail reranking_enabled reranker_available rerank_fn query
      top_k similarity_threshold results)

/-! ### Specification-side reference definitions and concrete instances -/

/-- The strict "ranks above" order on stored-document indices that the
selection actually realizes: higher score first, ties by *descending*
insertion index. -/
def descRel (scores : List ℚ) (a b : ℕ) : Prop :=
  scoreAt scores b < scoreAt scores a ∨ (scoreAt scores a = scoreAt scores b ∧ b < a)

/-- The lexical score exactly as claim C5 words it: sum over each *distinct*
query token present in the document of `count / len(doc_tokens)`, divided by
the number of query tokens.  (Reference definition built from the claim's
words, for comparison with `keywordScore`.) -/
def keywordScoreDistinctRef (query_tokens doc_tokens : List String) : ℚ :=
  if query_tokens.length = 0 ∨ doc_tokens.length = 0 then 0
  else
    (query_tokens.eraseDups.map (fun t =>
      if doc_tokens.contains t then (doc_tokens.count t : ℚ) / doc_tokens.length else 0)).sum
      / query_tokens.length

/-- The lexical score as the code computes it, written as a closed-form sum
over query-token *occurrences*: the reference definition of the amended
claim C5. -/
def keywordScoreOccRef (query_tokens doc_tokens : List String) : ℚ :=
  if query_tokens.length = 0 ∨ doc_tokens.length = 0 then 0
  else
    (query_tokens.map (fun t =>
      if doc_tokens.contains t then (doc_tokens.count t : ℚ) / doc_tokens.length else 0)).sum
      / query_tokens.length

/-- A concrete whitespace tokenizer standing in for NLTK `word_tokenize` on
inputs made of space-separated words (on which the two agree). -/
def spaceTokenize (s : String) : List String :=
  let p := s.toList.foldr
    (fun c acc =>
      if c = ' ' then (([] : List Char), if acc.1.isEmpty then acc.2 else acc.1 :: acc.2)
      else (c :: acc.1, acc.2))
    (([] : List Char), ([] : List (List Char)))
  (if p.1.isEmpty then p.2 else p.1 :: p.2).map (fun cs => String.mk cs)

/-- A concrete English stop-word sample (subset of the NLTK corpus). -/
def sampleStopWords : List String := ["the", "a", "is", "of", "and"]

/-- A concrete embedded document used by the closed instances below. -/
def mkDoc (t : String) (src : String) (cid : Int) (emb : List ℚ) : Doc :=
  { text := t, metadata := [("source", .vStr src), ("chunk_id", .vInt cid)],
    embedding := some emb }

/-- Two-document store whose documents tie on every score. -/
def tieStore : VectorStore :=
  { documents := [mkDoc "alpha" "a.pdf" 0 [1, 0], mkDoc "beta" "b.pdf" 1 [1, 0]],
    embedding_matrix := some [[1, 0], [1, 0]],
    distance_metric := "dot" }

/-- A store of one document whose `source` lives (only) inside the nested
`metadata` dict. -/
def metaStore : VectorStore :=
  { documents := [mkDoc "alpha" "a.pdf" 0 [1, 0]],
    embedding_matrix := some [[1, 0]],
    distance_metric := "dot" }

/-- A document carrying no `embedding` key. -/
def noEmbDoc : Doc :=
  { text := "gamma", metadata := [("source", .vStr "c.pdf"), ("chunk_id", .vInt 2)],
    embedding := none }

/-- A document whose embedding length (3) differs from `tieStore`'s (2). -/
def wrongDimDoc : Doc := mkDoc "delta" "d.pdf" 3 [1, 2, 3]

/-- Semantic-side document for the fusion instance (negative cosine score). -/
def fuseSemDoc : Doc :=
  { mkDoc "alpha" "a.pdf" 0 [1, 0] with similarity_score := some (-(1 / 2)) }

/-- Keyword-only document for the fusion instance. -/
def fuseKwDoc : Doc :=
  { mkDoc "beta" "b.pdf" 1 [0, 1] with keyword_score := some (9 / 10) }

/-! ### Properties of the argsort model -/

theorem argsort_perm (scores : List ℚ) :
    (argsort scores).Perm (List.range scores.length) :=
  List.perm_insertionSort _ _

theorem argsort_length (scores : List ℚ) :
    (argsort scores).length = scores.length := by
  have h := (argsort_perm scores).length_eq
  simpa using h

theorem argsort_nodup (scores : List ℚ) : (argsort scores).Nodup :=
  ((argsort_perm scores).nodup_iff).mpr (List.nodup_range _)

theorem argsort_mem (scores : List ℚ) (i : ℕ) :
    i ∈ argsort scores ↔ i < scores.length := by
  rw [(argsort_perm scores).mem_iff, List.mem_range]

theorem argsort_sorted (scores : List ℚ) :
    List.Sorted (argsortLe scores) (argsort scores) :=
  List.sorted_insertionSort _ _

theorem argsort_reverse_pairwise (scores : List ℚ) :
    (argsort scores).reverse.Pairwise (descRel scores) := by
  have h1 : (argsort scores).reverse.Pairwise (fun a b => argsortLe scores b a) :=
    List.pairwise_reverse.mpr (argsort_sorted scores)
  have h2 : (argsort scores).reverse.Pairwise (fun a b => a ≠ b) := by
    simpa [List.Nodup] using (List.nodup_reverse.mpr (argsort_nodup scores))
  refine (h1.and h2).imp ?_
  rintro a b ⟨hle, hne⟩
  rcases hle with h | ⟨heq, hba⟩
  · exact Or.inl h
  · exact Or.inr ⟨heq.symm, lt_of_le_of_ne hba (fun hba' => hne (hba' ▸ rfl))⟩

theorem topKIndices_eq (scores : List ℚ) (k : ℕ) :
    topKIndices scores k =
      if k = 0 then (argsort scores).reverse
      else (argsort scores).reverse.take k := by
  unfold topKIndices
  by_cases hk : k = 0
  · subst hk
    by_cases hlen : scores.length ≤ 0 <;> simp [hlen]
  · by_cases hlen : scores.length ≤ k
    · have hlen' : (argsort scores).reverse.length ≤ k := by
        simpa [argsort_length] using hlen
      simp [hlen, hk, List.take_of_length_le hlen']
    · have hk' : k ≤ scores.length := le_of_lt (lt_of_not_le hlen)
      simp only [if_neg hlen, if_neg hk]
      rw [List.reverse_drop, argsort_length, Nat.sub_sub_self hk']

theorem topKIndices_pairwise (scores : List ℚ) (k : ℕ) :
    (topKIndices scores k).Pairwise (descRel scores) := by
  rw [topKIndices_eq]
  by_cases hk : k = 0
  · simpa [hk] using argsort_reverse_pairwise scores
  · simpa [hk] using
      (argsort_reverse_pairwise scores).sublist (List.take_sublist k _)

theorem topKIndices_mem (scores : List ℚ) (k : ℕ) :
    ∀ i ∈ topKIndices scores k, i < scores.length := by
  rw [topKIndices_eq]
  intro i hi
  by_cases hk : k = 0
  · rw [if_pos hk, List.mem_reverse, argsort_mem] at hi
    exact hi
  · rw [if_neg hk] at hi
    have : i ∈ (argsort scores).reverse := (List.take_sublist k _).mem hi
    rw [List.mem_reverse, argsort_mem] at this
    exact this

theorem topKIndices_length (scores : List ℚ) (k : ℕ) (hk : 1 ≤ k) :
    (topKIndices scores k).length = min k scores.length := by
  rw [topKIndices_eq, if_neg (by omega : ¬ k = 0), List.length_take,
    List.length_reverse, argsort_length]

theorem topKIndices_complete (scores : List ℚ) (j : ℕ)
    (hj : j < scores.length) : j ∈ (argsort scores).reverse := by
  rw [List.mem_reverse, argsort_mem]
  exact hj

theorem topKIndices_top (scores : List ℚ) (k : ℕ) :
    ∀ i ∈ topKIndices scores k, ∀ j, j < scores.length →
      j ∉ topKIndices scores k → descRel scores i j := by
  rw [topKIndices_eq]
  by_cases hk : k = 0
  · rw [if_pos hk]
    intro i _ j hj hjn
    exact absurd (topKIndices_complete scores j hj) hjn
  · rw [if_neg hk]
    intro i hi j hj hjn
    have hsplit : (argsort scores).reverse.take k ++ (argsort scores).reverse.drop k =
        (argsort scores).reverse := List.take_append_drop k _
    have hpw : ((argsort scores).reverse.take k ++ (argsort scores).reverse.drop k).Pairwise
        (descRel scores) := by
      rw [hsplit]; exact argsort_reverse_pairwise scores
    have hjmem : j ∈ (argsort scores).reverse.drop k := by
      have := topKIndices_complete scores j hj
      rw [← hsplit, List.mem_append] at this
      exact this.resolve_left hjn
    exact (List.pairwise_append.mp hpw).2.2 i hi j hjmem

/-! ### Claim C1 -/

/-- Claim C1, as stated, is false on two counts, witnessed here concretely.
With two stored documents of equal score and `top_k = 2`,
`similarity_search` returns the documents in *descending* insertion-index
order (index 1 before index 0), not ascending as claimed; and with
`top_k = 0` on a two-document store it returns both documents instead of
`min(0, 2) = 0` of them, because the numpy slice `[-0:]` keeps the whole
array. -/
theorem C1_counterexample :
    similaritySearch tieStore [1, 1] 2 none =
      .ok [setSimilarityScore (mkDoc "beta" "b.pdf" 1 [1, 0]) 1,
           setSimilarityScore (mkDoc "alpha" "a.pdf" 0 [1, 0]) 1] ∧
    setSimilarityScore (mkDoc "beta" "b.pdf" 1 [1, 0]) 1 ≠
      setSimilarityScore (mkDoc "alpha" "a.pdf" 0 [1, 0]) 1 ∧
    similaritySearch tieStore [1, 1] 0 none =
      .ok [setSimilarityScore (mkDoc "beta" "b.pdf" 1 [1, 0]) 1,
           setSimilarityScore (mkDoc "alpha" "a.pdf" 0 [1, 0]) 1] := by
  refine ⟨by decide, by decide, by decide⟩

/-- Claim C1 (amended): for every store with a supported metric and intact
matrix, every per-document score vector and every `k ≥ 1`,
`similarity_search(q, k)` with no filter returns exactly
`min(k, store.size())` results: the documents at a list of indices that is
sorted descending by score with ties on equal scores broken by *descending*
original insertion index, each index dominating every unselected index, and
with the score attached to a copy of the document.  The selection is a pure
function of the store and scores, so repeated queries against an unchanged
store return identical ordering.  (`k = 0` instead returns all documents in
that same order.) -/
theorem C1_similarity_search_topk (store : VectorStore) (scores : List ℚ) (k : ℕ)
    (hmet : supportedMetric store.distance_metric = true)
    (hmat : store.documents ≠ [] → store.embedding_matrix.isSome = true)
    (hlen : scores.length = store.documents.length) (hk : 1 ≤ k) :
    ∃ idxs : List ℕ,
      similaritySearch store scores k none =
        .ok (idxs.map (fun i =>
          setSimilarityScore (store.documents.getD i dfltDoc) (scoreAt scores i))) ∧
      idxs.length = min k store.documents.length ∧
      (∀ i ∈ idxs, i < store.documents.length) ∧
      idxs.Pairwise (descRel scores) ∧
      (∀ i ∈ idxs, ∀ j, j < store.documents.length → j ∉ idxs → descRel scores i j) := by
  by_cases hempty : store.documents = []
  · refine ⟨[], ?_, ?_, ?_, ?_, ?_⟩
    · simp [similaritySearch, hempty]
    · simp [hempty]
    · intro i hi; exact absurd hi (List.not_mem_nil i)
    · exact List.Pairwise.nil
    · intro i hi; exact absurd hi (List.not_mem_nil i)
  · obtain ⟨m, hm⟩ := Option.isSome_iff_exists.mp (hmat hempty)
    have hne : store.documents.isEmpty = false := by
      simpa [List.isEmpty_iff] using hempty
    refine ⟨topKIndices scores k, ?_, ?_, ?_, ?_, ?_⟩
    · have hbuild : searchBuild store.documents scores
          (List.range store.documents.length) k =
          (topKIndices scores k).map (fun i =>
            setSimilarityScore (store.documents.getD i dfltDoc) (scoreAt scores i)) := by
        unfold searchBuild
        refine List.map_congr_left ?_
        intro idx hidx
        have hlt : idx < store.documents.length :=
          hlen ▸ topKIndices_mem scores k idx hidx
        have : (List.range store.documents.length).getD idx 0 = idx := by
          rw [List.getD_eq_getElem _ _ (by simpa using hlt), List.getElem_range]
        rw [this]
      simp [similaritySearch, hne, hm, hmet, hbuild]
    · rw [topKIndices_length scores k hk, hlen]
    · intro i hi; exact hlen ▸ topKIndices_mem scores k i hi
    · exact topKIndices_pairwise scores k
    · intro i hi j hj hjn
      exact topKIndices_top scores k i hi j (hlen ▸ hj) hjn

/-- Closed instance of `C1_similarity_search_topk` on a concrete store with
distinct scores and `k = 1`. -/
theorem C1_witness :
    ∃ idxs : List ℕ,
      similaritySearch tieStore [3, 7] 1 none =
        .ok (idxs.map (fun i =>
          setSimilarityScore (tieStore.documents.getD i dfltDoc) (scoreAt [3, 7] i))) ∧
      idxs.length = min 1 tieStore.documents.length ∧
      (∀ i ∈ idxs, i < tieStore.documents.length) ∧
      idxs.Pairwise (descRel [3, 7]) ∧
      (∀ i ∈ idxs, ∀ j, j < tieStore.documents.length → j ∉ idxs → descRel [3, 7] i j) :=
  C1_similarity_search_topk tieStore [3, 7] 1 (by decide) (fun _ => by decide)
    (by decide) (by decide)

/-! ### Claim C10 -/

theorem getD_mem_of_lt (documents : List Doc) (i : ℕ) (hi : i < documents.length) :
    documents.getD i dfltDoc ∈ documents := by
  rw [List.getD_eq_getElem _ _ hi]
  exact List.getElem_mem _

theorem searchBuild_mem (documents : List Doc) (scores : List ℚ)
    (doc_indices : List ℕ) (k : ℕ) (hne : documents ≠ [])
    (hidx : ∀ x ∈ doc_indices, x < documents.length) :
    ∀ r ∈ searchBuild documents scores doc_indices k,
      ∃ d ∈ documents, ∃ sc, r = { d with similarity_score := some sc } := by
  intro r hr
  unfold searchBuild at hr
  obtain ⟨idx, _, rfl⟩ := List.mem_map.mp hr
  have hjlt : doc_indices.getD idx 0 < documents.length := by
    by_cases hlt : idx < doc_indices.length
    · refine hidx _ ?_
      rw [List.getD_eq_getElem _ _ hlt]
      exact List.getElem_mem _
    · rw [List.getD_eq_default _ _ (le_of_not_lt hlt)]
      exact List.length_pos.mpr hne
  exact ⟨documents.getD (doc_indices.getD idx 0) dfltDoc, getD_mem_of_lt _ _ hjlt,
    scoreAt scores idx, rfl⟩

theorem applyFilters_mem (documents : List Doc) (fd : List (String × TopVal)) (i : ℕ) :
    i ∈ applyFilters documents fd ↔
      i < documents.length ∧ matchesFilter (documents.getD i dfltDoc) fd = true := by
  simp [applyFilters, List.mem_filter, List.mem_range]

/-- Claim C10: `similarity_search` leaves the store state unchanged — the
state-passing view returns exactly the input store — and on success every
returned result is a fresh top-level copy of some stored document with only
its `similarity_score` key (re)assigned, so the stored records themselves
never carry the attached score. -/
theorem C10_similarity_search_frame (store : VectorStore) (scores : List ℚ) (k : ℕ)
    (fd : Option (List (String × TopVal))) (rs : List Doc)
    (hok : (similaritySearchST store scores k fd).1 = .ok rs) :
    (similaritySearchST store scores k fd).2 = store ∧
    ∀ r ∈ rs, ∃ d ∈ store.documents, ∃ sc,
      r = { d with similarity_score := some sc } := by
  refine ⟨rfl, ?_⟩
  have hok' : similaritySearch store scores k fd = .ok rs := hok
  unfold similaritySearch at hok'
  split at hok'
  · obtain rfl : ([] : List Doc) = rs := by injection hok'
    intro r hr
    exact absurd hr (List.not_mem_nil r)
  · rename_i h1
    have hne : store.documents ≠ [] := by
      intro hcon
      simp [hcon] at h1
    split at hok'
    · obtain rfl : ([] : List Doc) = rs := by injection hok'
      intro r hr
      exact absurd hr (List.not_mem_nil r)
    · split at hok'
      · obtain rfl : searchBuild store.documents scores
            (List.range store.documents.length) k = rs := by injection hok'
        exact searchBuild_mem _ _ _ _ hne (fun x hx => List.mem_range.mp hx)
      · rename_i f
        dsimp only at hok'
        split at hok'
        · obtain rfl : searchBuild store.documents scores
              (List.range store.documents.length) k = rs := by injection hok'
          exact searchBuild_mem _ _ _ _ hne (fun x hx => List.mem_range.mp hx)
        · split at hok'
          · exact absurd hok' (by simp)
          · obtain rfl : searchBuild store.documents
                ((applyFilters store.documents f).map (scoreAt scores))
                (applyFilters store.documents f) k = rs := by injection hok'
            refine searchBuild_mem _ _ _ _ hne ?_
            intro x hx
            exact ((applyFilters_mem store.documents f x).mp hx).1

/-- Closed instance of `C10_similarity_search_frame` on a concrete store. -/
theorem C10_witness :
    (similaritySearchST metaStore [5] 1 none).2 = metaStore ∧
    ∃ d ∈ metaStore.documents, ∃ sc,
      setSimilarityScore (mkDoc "alpha" "a.pdf" 0 [1, 0]) 5 =
        { d with similarity_score := some sc } :=
  ⟨(C10_similarity_search_frame metaStore [5] 1 none
      [setSimilarityScore (mkDoc "alpha" "a.pdf" 0 [1, 0]) 5] (by decide)).1,
   (C10_similarity_search_frame metaStore [5] 1 none
      [setSimilarityScore (mkDoc "alpha" "a.pdf" 0 [1, 0]) 5] (by decide)).2
     (setSimilarityScore (mkDoc "alpha" "a.pdf" 0 [1, 0]) 5) (by decide)⟩

/-! ### Claim C3 -/

theorem applyFilters_sorted (documents : List Doc) (fd : List (String × TopVal)) :
    (applyFilters documents fd).Pairwise (· < ·) :=
  (List.pairwise_lt_range _).sublist (List.filter_sublist _)

theorem listGetD_lt_of_pairwise (l : List ℕ) (hp : l.Pairwise (· < ·)) (p q : ℕ)
    (hpl : p < l.length) (hql : q < l.length) (hpq : p < q) :
    l.getD p 0 < l.getD q 0 := by
  rw [List.getD_eq_getElem _ _ hpl, List.getD_eq_getElem _ _ hql]
  have := List.pairwise_iff_get.mp hp ⟨p, hpl⟩ ⟨q, hql⟩ (Fin.mk_lt_mk.mpr hpq)
  simpa using this

theorem scoreAt_map (scores : List ℚ) (fidx : List ℕ) (p : ℕ) (hp : p < fidx.length) :
    scoreAt (fidx.map (scoreAt scores)) p = scoreAt scores (fidx.getD p 0) := by
  unfold scoreAt
  rw [List.getD_eq_getElem _ _ (by simpa using hp), List.getElem_map,
    List.getD_eq_getElem _ _ hp]

theorem getD_mem_of_lt_nat (l : List ℕ) (p : ℕ) (hp : p < l.length) :
    l.getD p 0 ∈ l := by
  rw [List.getD_eq_getElem _ _ hp]
  exact List.getElem_mem _

/-- Claim C3, as stated, is false: the `source` key of the only stored
document lives inside its nested `metadata` dict (first conjunct), so the
claim says the filtered search must return that document; but
`_apply_filters` consults only top-level dict keys, finds no match, and the
resulting empty (float dtype) `np.array([])` index makes the search raise
`IndexError` instead of returning a result list — also refuting "empty
post-filter candidate set yields an empty result list, not an error".  The
third conjunct shows `k = 0` returning 1 result against a post-filter
cardinality bound of `min(0, 1) = 0`. -/
theorem C3_counterexample :
    (metaStore.documents.getD 0 dfltDoc).metadata.lookup "source" =
      some (Value.vStr "a.pdf") ∧
    similaritySearch metaStore [5] 1 (some [("source", TopVal.str "a.pdf")]) =
      .error .indexError ∧
    similaritySearch tieStore [1, 1] 0 (some [("text", TopVal.str "alpha")]) =
      .ok [setSimilarityScore (mkDoc "alpha" "a.pdf" 0 [1, 0]) 1] := by
  refine ⟨by decide, by decide, by decide⟩

/-- Claim C3 (amended): a truthy filter matches a document exactly when
every filter key is present as a *top-level* key of the document dict with
an equal value (the nested `metadata` dict is itself one such key, not the
namespace searched); the match set is computed before top-k selection, and
for `k ≥ 1` the search returns the top-`min(k, m)` of the `m` matching
documents (sorted by `descRel`, each selected index dominating every
unselected matching index); an *empty* match set over a nonempty store
raises `IndexError` (empty float-dtype numpy index) instead of returning an
empty list. -/
theorem C3_filtered_search (store : VectorStore) (scores : List ℚ) (k : ℕ)
    (fd : List (String × TopVal))
    (hmet : supportedMetric store.distance_metric = true)
    (hmat : store.documents ≠ [] → store.embedding_matrix.isSome = true)
    (hk : 1 ≤ k) (hfd : fd ≠ []) :
    (∀ i, i ∈ applyFilters store.documents fd ↔
      i < store.documents.length ∧
        matchesFilter (store.documents.getD i dfltDoc) fd = true) ∧
    (applyFilters store.documents fd = [] → store.documents ≠ [] →
      similaritySearch store scores k (some fd) = .error .indexError) ∧
    (applyFilters store.documents fd ≠ [] →
      ∃ sel : List ℕ,
        similaritySearch store scores k (some fd) =
          .ok (sel.map (fun i =>
            setSimilarityScore (store.documents.getD i dfltDoc) (scoreAt scores i))) ∧
        sel.length = min k (applyFilters store.documents fd).length ∧
        (∀ i ∈ sel, i ∈ applyFilters store.documents fd) ∧
        sel.Pairwise (descRel scores) ∧
        (∀ i ∈ sel, ∀ j ∈ applyFilters store.documents fd, j ∉ sel →
          descRel scores i j)) := by
  refine ⟨fun i => applyFilters_mem store.documents fd i, ?_, ?_⟩
  · intro hempty hne
    have hne' : store.documents.isEmpty = false := by
      simpa [List.isEmpty_iff] using hne
    obtain ⟨m, hm⟩ := Option.isSome_iff_exists.mp (hmat hne)
    have hfd' : fd.isEmpty = false := by simpa [List.isEmpty_iff] using hfd
    simp [similaritySearch, hne', hm, hmet, hfd', hempty]
  · intro hfne
    have hdocne : store.documents ≠ [] := by
      obtain ⟨i, hi⟩ := List.exists_mem_of_ne_nil _ hfne
      intro hcon
      have := (applyFilters_mem _ _ i).mp hi
      rw [hcon] at this
      simp at this
    obtain ⟨m, hm⟩ := Option.isSome_iff_exists.mp (hmat hdocne)
    have hne' : store.documents.isEmpty = false := by
      simpa [List.isEmpty_iff] using hdocne
    have hfd' : fd.isEmpty = false := by simpa [List.isEmpty_iff] using hfd
    have hfne' : (applyFilters store.documents fd).isEmpty = false := by
      simpa [List.isEmpty_iff] using hfne
    have hslen : ((applyFilters store.documents fd).map (scoreAt scores)).length =
        (applyFilters store.documents fd).length := List.length_map _ _
    have hfsorted := applyFilters_sorted store.documents fd
    refine ⟨(topKIndices ((applyFilters store.documents fd).map (scoreAt scores)) k).map
      (fun p => (applyFilters store.documents fd).getD p 0), ?_, ?_, ?_, ?_, ?_⟩
    · have hbuild : searchBuild store.documents
          ((applyFilters store.documents fd).map (scoreAt scores))
          (applyFilters store.documents fd) k =
          ((topKIndices ((applyFilters store.documents fd).map (scoreAt scores)) k).map
            (fun p => (applyFilters store.documents fd).getD p 0)).map (fun i =>
              setSimilarityScore (store.documents.getD i dfltDoc) (scoreAt scores i)) := by
        unfold searchBuild
        rw [List.map_map]
        refine List.map_congr_left ?_
        intro p hp
        have hplt : p < (applyFilters store.documents fd).length :=
          hslen ▸ topKIndices_mem _ k p hp
        simp only [Function.comp]
        rw [scoreAt_map scores _ p hplt]
      simp [similaritySearch, hne', hm, hmet, hfd', hfne', hbuild]
    · rw [List.length_map, topKIndices_length _ k hk, hslen]
    · intro i hi
      obtain ⟨p, hp, rfl⟩ := List.mem_map.mp hi
      exact getD_mem_of_lt_nat _ p (hslen ▸ topKIndices_mem _ k p hp)
    · rw [List.pairwise_map]
      refine (topKIndices_pairwise _ k).imp_of_mem ?_
      intro p q hpmem hqmem hpq
      have hplt : p < (applyFilters store.documents fd).length :=
        hslen ▸ topKIndices_mem _ k p hpmem
      have hqlt : q < (applyFilters store.documents fd).length :=
        hslen ▸ topKIndices_mem _ k q hqmem
      rcases hpq with h | ⟨heq, hlt⟩
      · rw [scoreAt_map scores _ p hplt, scoreAt_map scores _ q hqlt] at h
        exact Or.inl h
      · rw [scoreAt_map scores _ p hplt] at heq
        rw [scoreAt_map scores _ q hqlt] at heq
        exact Or.inr ⟨heq, listGetD_lt_of_pairwise _ hfsorted q p hqlt hplt hlt⟩
    · intro i hi j hj hjn
      obtain ⟨p, hpmem, rfl⟩ := List.mem_map.mp hi
      obtain ⟨⟨qpos, hql⟩, rfl⟩ := List.mem_iff_get.mp hj
      have hgetD : (applyFilters store.documents fd).getD qpos 0 =
          (applyFilters store.documents fd).get ⟨qpos, hql⟩ := by
        rw [List.getD_eq_getElem _ _ hql, List.get_eq_getElem]
      have hqn : qpos ∉ topKIndices ((applyFilters store.documents fd).map
          (scoreAt scores)) k := by
        intro hqmem
        exact hjn (hgetD ▸ List.mem_map.mpr ⟨qpos, hqmem, rfl⟩)
      have hplt : p < (applyFilters store.documents fd).length :=
        hslen ▸ topKIndices_mem _ k p hpmem
      have h := topKIndices_top _ k p hpmem qpos (hslen ▸ hql) hqn
      rcases h with h | ⟨heq, hlt⟩
      · rw [scoreAt_map scores _ p hplt, scoreAt_map scores _ qpos hql] at h
        exact Or.inl (hgetD ▸ h)
      · rw [scoreAt_map scores _ p hplt] at heq
        rw [scoreAt_map scores _ qpos hql] at heq
        refine Or.inr ⟨hgetD ▸ heq, hgetD ▸ ?_⟩
        exact listGetD_lt_of_pairwise _ hfsorted qpos p hql hplt hlt

/-- Closed instance of `C3_filtered_search` on a concrete store with a
top-level filter key that matches. -/
theorem C3_witness :
    ∃ sel : List ℕ,
      similaritySearch metaStore [5] 1 (some [("text", TopVal.str "alpha")]) =
        .ok (sel.map (fun i =>
          setSimilarityScore (metaStore.documents.getD i dfltDoc) (scoreAt [5] i))) ∧
      sel.length = min 1 (applyFilters metaStore.documents
        [("text", TopVal.str "alpha")]).length ∧
      (∀ i ∈ sel, i ∈ applyFilters metaStore.documents [("text", TopVal.str "alpha")]) ∧
      sel.Pairwise (descRel [5]) ∧
      (∀ i ∈ sel, ∀ j ∈ applyFilters metaStore.documents [("text", TopVal.str "alpha")],
        j ∉ sel → descRel [5] i j) :=
  (C3_filtered_search metaStore [5] 1 [("text", TopVal.str "alpha")] (by decide)
    (fun _ => by decide) (by decide) (by decide)).2.2 (by decide)

/-! ### Claim C2 -/

theorem mapM_embedding_of_aligned (e : List ℚ) :
    ∀ ds : List Doc,
      ds.all (fun x => match x.embedding with
        | none => false
        | some e2 => e2.length == e.length) = true →
      ∃ es, ds.mapM (fun d => d.embedding) = some es ∧
        es.all (fun x => x.length == e.length) = true := by
  intro ds
  induction ds with
  | nil => intro _; exact ⟨[], rfl, rfl⟩
  | cons x ds ih =>
    intro hall
    rw [List.all_cons, Bool.and_eq_true] at hall
    obtain ⟨hx, hds⟩ := hall
    obtain ⟨es, hes, hlens⟩ := ih hds
    cases he : x.embedding with
    | none => rw [he] at hx; exact absurd hx (by simp)
    | some e2 =>
      rw [he] at hx
      refine ⟨e2 :: es, ?_, ?_⟩
      · rw [List.mapM_cons, he, hes]; rfl
      · rw [List.all_cons, Bool.and_eq_true]; exact ⟨hx, hlens⟩

theorem aligned_mapM_vstack (docs : List Doc) (hne : docs ≠ [])
    (hal : embeddingsAligned docs = true) :
    ∃ es, docs.mapM (fun d => d.embedding) = some es ∧ vstack es = some es := by
  match docs, hne with
  | d :: ds, _ =>
    simp only [embeddingsAligned] at hal
    cases he : d.embedding with
    | none => rw [he] at hal; exact absurd hal (by simp)
    | some e =>
      rw [he] at hal
      obtain ⟨es, hes, hlens⟩ := mapM_embedding_of_aligned e ds hal
      refine ⟨e :: es, ?_, ?_⟩
      · rw [List.mapM_cons, he, hes]; rfl
      · unfold vstack
        simp only [hlens, if_true]

/-- Claim C2, as stated, is false on two counts, witnessed concretely.  A
batch containing a document without an embedding is not rejected with a
`MissingEmbedding` error: the call returns normally (store unchanged).  A
batch whose embedding length (3) differs from the store's dimension (2)
does raise out of the matrix rebuild (`np.vstack` — `ValueError`), but only
*after* `documents.extend`, so the failed append leaves the document
sequence extended: not all-or-nothing. -/
theorem C2_counterexample :
    addDocuments tieStore [noEmbDoc] = .ok tieStore ∧
    addDocuments tieStore [wrongDimDoc] =
      .exn .valueError
        { tieStore with documents := tieStore.documents ++ [wrongDimDoc] } := by
  refine ⟨by decide, by decide⟩

/-- Claim C2 (amended): `add_documents` validates only the presence of the
`embedding` key, never its dimension.  (1) A batch with any entry lacking
an embedding is dropped silently: no error, store unchanged.  (2) When all
entries carry embeddings and the combined rows share one length, every
document of the batch is appended and the dense matrix rebuilt from the
full sequence.  (3) When the combined rows are ragged, the rebuild raises
`ValueError` *after* the batch has been appended, so the store is left
modified (documents extended, matrix stale): the append is not
all-or-nothing, and there is no up-front `DimensionMismatch` check. -/
theorem C2_add_documents (store : VectorStore) (batch : List Doc) :
    (batch.any (fun d => d.embedding.isNone) = true →
      addDocuments store batch = .ok store) ∧
    (batch ≠ [] → batch.all (fun d => d.embedding.isSome) = true →
      embeddingsAligned (store.documents ++ batch) = true →
      ∃ es, (store.documents ++ batch).mapM (fun d => d.embedding) = some es ∧
        addDocuments store batch =
          .ok { documents := store.documents ++ batch,
                embedding_matrix := some es,
                distance_metric := store.distance_metric }) ∧
    (∀ es, batch ≠ [] → batch.all (fun d => d.embedding.isSome) = true →
      (store.documents ++ batch).mapM (fun d => d.embedding) = some es →
      vstack es = none →
      addDocuments store batch =
        .exn .valueError { store with documents := store.documents ++ batch }) := by
  refine ⟨?_, ?_, ?_⟩
  · intro hany
    have hne : batch.isEmpty = false := by
      cases batch with
      | nil => simp at hany
      | cons x xs => rfl
    unfold addDocuments
    rw [hne, hany]
    rfl
  · intro hne hall hal
    have hne' : batch.isEmpty = false := by
      cases batch with
      | nil => exact absurd rfl hne
      | cons x xs => rfl
    have happne : store.documents ++ batch ≠ [] := by
      simp [hne]
    obtain ⟨es, hes, hvs⟩ := aligned_mapM_vstack _ happne hal
    refine ⟨es, hes, ?_⟩
    have hany : batch.any (fun d => d.embedding.isNone) = false := by
      rw [List.any_eq_false]
      intro d hd
      have := (List.all_eq_true.mp hall) d hd
      simp only [Option.isNone_iff_eq_none]
      intro hcon
      rw [hcon] at this
      exact absurd this (by simp)
    unfold addDocuments
    rw [hne', hany]
    unfold updateEmbeddingMatrix
    have happne' : (store.documents ++ batch).isEmpty = false := by
      simpa [List.isEmpty_iff] using happne
    simp only [happne', Bool.false_eq_true, if_false, hes, hvs]
  · intro es hne hall hes hvs
    have hne' : batch.isEmpty = false := by
      cases batch with
      | nil => exact absurd rfl hne
      | cons x xs => rfl
    have hany : batch.any (fun d => d.embedding.isNone) = false := by
      rw [List.any_eq_false]
      intro d hd
      have := (List.all_eq_true.mp hall) d hd
      simp only [Option.isNone_iff_eq_none]
      intro hcon
      rw [hcon] at this
      exact absurd this (by simp)
    unfold addDocuments
    rw [hne', hany]
    unfold updateEmbeddingMatrix
    have happne' : (store.documents ++ batch).isEmpty = false := by
      simp [List.isEmpty_iff, hne]
    simp only [happne', Bool.false_eq_true, if_false, hes, hvs]

/-- Closed instance of `C2_add_documents`: a dimension-respecting batch is
appended whole and the matrix rebuilt. -/
theorem C2_witness :
    ∃ es, (tieStore.documents ++ [mkDoc "eps" "e.pdf" 4 [2, 2]]).mapM
        (fun d => d.embedding) = some es ∧
      addDocuments tieStore [mkDoc "eps" "e.pdf" 4 [2, 2]] =
        .ok { documents := tieStore.documents ++ [mkDoc "eps" "e.pdf" 4 [2, 2]],
              embedding_matrix := some es,
              distance_metric := tieStore.distance_metric } :=
  (C2_add_documents tieStore [mkDoc "eps" "e.pdf" 4 [2, 2]]).2.1 (by decide)
    (by decide) (by decide)

/-! ### Claim C9 -/

/-- Claim C9: for every non-empty store satisfying the dimension invariant,
loading the snapshot produced by saving it yields a store with the
identical document sequence (hence identical order, vectors and metadata)
and the same configured distance metric. -/
theorem C9_snapshot_roundtrip (store : VectorStore)
    (hne : store.documents ≠ [])
    (hal : embeddingsAligned store.documents = true) :
    ∃ s', load (save store) = .ok s' ∧
      s'.documents = store.documents ∧
      s'.distance_metric = store.distance_metric := by
  obtain ⟨es, hes, hvs⟩ := aligned_mapM_vstack _ hne hal
  refine ⟨{ documents := store.documents, embedding_matrix := some es,
            distance_metric := store.distance_metric }, ?_, rfl, rfl⟩
  unfold load save updateEmbeddingMatrix
  have hne' : store.documents.isEmpty = false := by
    simpa [List.isEmpty_iff] using hne
  simp only [hne', Bool.false_eq_true, if_false, hes, hvs]

/-- Closed instance of `C9_snapshot_roundtrip` on a concrete store. -/
theorem C9_witness :
    ∃ s', load (save tieStore) = .ok s' ∧
      s'.documents = tieStore.documents ∧
      s'.distance_metric = tieStore.distance_metric :=
  C9_snapshot_roundtrip tieStore (by decide) (by decide)

/-! ### Claim C4 -/

/-- Claim C4: under the cosine metric, for every query vector and every
stored vector — including zero and near-zero rows, whose norm is clamped to
`1e-10` before division — the computed semantic score lies in `[-1, 1]`
(exactly, over the reals; the float computation matches it modulo rounding
epsilon). -/
theorem C4_cosine_bounded (n : ℕ) (v q : EuclideanSpace ℝ (Fin n)) :
    -1 ≤ cosineScore v q ∧ cosineScore v q ≤ 1 := by
  have hq : ‖normalizeQuery q‖ ≤ 1 := by
    unfold normalizeQuery
    split
    · rename_i h
      rw [norm_smul, norm_inv, norm_norm, inv_mul_cancel₀ (ne_of_gt h)]
    · rename_i h
      push_neg at h
      have hq0 : ‖q‖ = 0 := le_antisymm h (norm_nonneg q)
      rw [hq0]
      norm_num
  have hv : ‖clampedNormalize v‖ ≤ 1 := by
    unfold clampedNormalize
    rw [norm_smul, norm_inv, Real.norm_eq_abs]
    have heps : (0 : ℝ) < normEps := by unfold normEps; norm_num
    have hmax : 0 < max ‖v‖ normEps := lt_max_of_lt_right heps
    rw [abs_of_pos hmax]
    calc (max ‖v‖ normEps)⁻¹ * ‖v‖
        ≤ (max ‖v‖ normEps)⁻¹ * max ‖v‖ normEps :=
          mul_le_mul_of_nonneg_left (le_max_left _ _) (inv_nonneg.mpr hmax.le)
      _ = 1 := inv_mul_cancel₀ (ne_of_gt hmax)
  have habs : |cosineScore v q| ≤ 1 := by
    unfold cosineScore
    calc |(inner (clampedNormalize v) (normalizeQuery q) : ℝ)|
        ≤ ‖clampedNormalize v‖ * ‖normalizeQuery q‖ := abs_real_inner_le_norm _ _
      _ ≤ 1 * 1 := mul_le_mul hv hq (norm_nonneg _) zero_le_one
      _ = 1 := one_mul 1
  exact ⟨neg_le_of_abs_le habs, le_of_abs_le habs⟩

/-! ### Claim C5 -/

theorem keyword_foldl_sum (d : List String) (f : String → ℚ) (q : List String) :
    ∀ acc : ℚ,
      q.foldl (fun acc token => if d.contains token then acc + f token else acc) acc =
        acc + (q.map (fun t => if d.contains t then f t else 0)).sum := by
  induction q with
  | nil => intro acc; simp
  | cons x xs ih =>
    intro acc
    by_cases hx : d.contains x
    · simp only [List.foldl_cons, hx, if_true, List.map_cons, List.sum_cons, ih]
      ring
    · simp only [List.foldl_cons, hx, Bool.false_eq_true, if_false, List.map_cons,
        List.sum_cons, ih]
      ring

/-- Claim C5 counterexample: on the query "cat cat" and document "cat dog"
(whitespace tokenization, on which `word_tokenize` agrees; no token is a
stop word), the code's lexical score counts the duplicated query token once
per *occurrence*, yielding (1/2 + 1/2) / 2 = 1/2, while the claim's
reference definition sums over *distinct* query tokens present in the
document and yields (1/2) / 2 = 1/4. -/
theorem C5_counterexample :
    keywordScore
        (filterTokens sampleStopWords (spaceTokenize "cat cat"))
        (filterTokens sampleStopWords (spaceTokenize "cat dog")) = 1 / 2 ∧
    keywordScoreDistinctRef
        (filterTokens sampleStopWords (spaceTokenize "cat cat"))
        (filterTokens sampleStopWords (spaceTokenize "cat dog")) = 1 / 4 ∧
    (1 : ℚ) / 2 ≠ 1 / 4 := by
  have htok1 : filterTokens sampleStopWords (spaceTokenize "cat cat") =
      ["cat", "cat"] := by decide
  have htok2 : filterTokens sampleStopWords (spaceTokenize "cat dog") =
      ["cat", "dog"] := by decide
  have hc : (["cat", "dog"] : List String).contains "cat" = true := by decide
  have hcnt : List.count "cat" (["cat", "dog"] : List String) = 1 := by decide
  refine ⟨?_, ?_, by norm_num⟩
  · rw [htok1, htok2]
    unfold keywordScore
    simp only [List.foldl_cons, List.foldl_nil, hc, hcnt, List.length_cons,
      List.length_nil]
    norm_num
  · rw [htok1, htok2]
    unfold keywordScoreDistinctRef
    rw [show (["cat", "cat"] : List String).eraseDups = ["cat"] from by decide]
    simp only [List.map_cons, List.map_nil, hc, hcnt, List.length_cons,
      List.length_nil, List.sum_cons, List.sum_nil]
    norm_num

/-- Claim C5 (amended): for every pair of filtered token lists, the lexical
score equals the occurrence-summed reference exactly: sum over each query
token *occurrence* whose token appears in the document of
`count(token in doc) / len(doc_tokens)`, divided by the number of query
tokens; a document with no tokens after filtering scores 0 for every
query, and a query with no tokens scores 0 against every document. -/
theorem C5_keyword_score (query_tokens doc_tokens : List String) :
    keywordScore query_tokens doc_tokens =
      keywordScoreOccRef query_tokens doc_tokens := by
  unfold keywordScore keywordScoreOccRef
  by_cases hq : query_tokens.length = 0
  · have hqnil : query_tokens = [] := List.length_eq_zero.mp hq
    subst hqnil
    simp
  · by_cases hd : doc_tokens.length = 0
    · have hdnil : doc_tokens = [] := List.length_eq_zero.mp hd
      subst hdnil
      have hqpos : 0 < query_tokens.length := Nat.pos_of_ne_zero hq
      rw [keyword_foldl_sum [] (fun t =>
        if ([] : List String).length > 0 then
          (([] : List String).count t : ℚ) / ([] : List String).length else 0)]
      simp [hq]
    · have hqpos : 0 < query_tokens.length := Nat.pos_of_ne_zero hq
      have hdpos : 0 < doc_tokens.length := Nat.pos_of_ne_zero hd
      rw [keyword_foldl_sum doc_tokens (fun t =>
        if doc_tokens.length > 0 then
          (doc_tokens.count t : ℚ) / doc_tokens.length else 0)]
      simp [hq, hd, hqpos, hdpos]

/-! ### Properties of the stable descending sort (Python `sorted`, `reverse=True`) -/

theorem insertByDesc_perm {α : Type} (key : α → ℚ) (x : α) (l : List α) :
    (insertByDesc key x l).Perm (x :: l) := by
  induction l with
  | nil => exact List.Perm.refl _
  | cons y ys ih =>
    rw [insertByDesc]
    by_cases h : key y ≤ key x
    · rw [if_pos h]
    · rw [if_neg h]
      exact List.Perm.trans (List.Perm.cons y ih) (List.Perm.swap x y ys)

theorem insertByDesc_pairwise {α : Type} (key : α → ℚ) (x : α) (l : List α)
    (hl : l.Pairwise (fun a b => key b ≤ key a)) :
    (insertByDesc key x l).Pairwise (fun a b => key b ≤ key a) := by
  induction l with
  | nil => simp [insertByDesc]
  | cons y ys ih =>
    rw [insertByDesc]
    obtain ⟨hy, hys⟩ := List.pairwise_cons.mp hl
    by_cases h : key y ≤ key x
    · rw [if_pos h]
      refine List.Pairwise.cons ?_ hl
      intro z hz
      rcases List.mem_cons.mp hz with rfl | hz'
      · exact h
      · exact le_trans (hy z hz') h
    · rw [if_neg h]
      push_neg at h
      refine List.Pairwise.cons ?_ (ih hys)
      intro z hz
      have hz' : z ∈ x :: ys := (insertByDesc_perm key x ys).mem_iff.mp hz
      rcases List.mem_cons.mp hz' with rfl | hz''
      · exact h.le
      · exact hy z hz''

theorem stableSortDescBy_perm {α : Type} (key : α → ℚ) (l : List α) :
    (stableSortDescBy key l).Perm l := by
  induction l with
  | nil => exact List.Perm.refl _
  | cons x xs ih =>
    have h1 : stableSortDescBy key (x :: xs) =
        insertByDesc key x (stableSortDescBy key xs) := rfl
    rw [h1]
    exact List.Perm.trans (insertByDesc_perm key x _) (List.Perm.cons x ih)

theorem stableSortDescBy_pairwise {α : Type} (key : α → ℚ) (l : List α) :
    (stableSortDescBy key l).Pairwise (fun a b => key b ≤ key a) := by
  induction l with
  | nil => exact List.Pairwise.nil
  | cons x xs ih => exact insertByDesc_pairwise key x _ ih

theorem stableSortDescBy_length {α : Type} (key : α → ℚ) (l : List α) :
    (stableSortDescBy key l).length = l.length :=
  (stableSortDescBy_perm key l).length_eq

/-! ### Claim C6 -/

theorem docId_set_scores (d : Doc) (a b c : Option ℚ) :
    docId { d with similarity_score := a, semantic_score := b,
                   keyword_score := c } = docId d := rfl

theorem simScoreD_set (d : Doc) (x : ℚ) (b c : Option ℚ) :
    simScoreD { d with similarity_score := some x, semantic_score := b,
                       keyword_score := c } = x := rfl

/-- Claim C6, as stated, is false: with `weight = 1.0` the hybrid block's
resulting ranking is not the pure semantic ranking.  With one semantic
result and one keyword-only result, the key union has two entries, so the
fused, sorted, truncated ranking lists two document identities while the
pure semantic ranking lists one — the keyword-only document enters with
fused score `1 * 0 + 0 * keyword_score = 0` instead of being excluded. -/
theorem C6_counterexample :
    ((hybridCombine 1 [fuseSemDoc] [fuseKwDoc]).take 3).map docId ≠
      [fuseSemDoc].map docId := by
  intro h
  have hlen := congrArg List.length h
  rw [List.length_map, List.length_map, List.length_take] at hlen
  have hcomb : (hybridCombine 1 [fuseSemDoc] [fuseKwDoc]).length =
      (fuseResults 1 [fuseSemDoc] [fuseKwDoc]).length :=
    stableSortDescBy_length simScoreD _
  rw [hcomb, show (fuseResults 1 [fuseSemDoc] [fuseKwDoc]).length = 2 from by decide]
    at hlen
  simp at hlen

/-- Claim C6 (amended): fusion scores the union of identity keys with
`fused = weight * semantic_score + (1 - weight) * lexical_score`, a missing
score standing in as 0, and sorts descending by the fused score; with
`weight = 1.0` every fused entry's score equals its semantic score exactly
and with `weight = 0.0` its lexical score exactly — but the *ranking*
ranges over the whole key union, so keyword-only (resp. semantic-only)
documents still appear with score 0 and the ranking need not coincide with
the pure semantic (resp. lexical) ranking. -/
theorem C6_fusion (weight : ℚ) (semantic_results keyword_results : List Doc) :
    (∀ d ∈ fuseResults weight semantic_results keyword_results,
      simScoreD d = weight * lastScore simScoreD semantic_results (docId d) +
        (1 - weight) * lastScore kwScoreD keyword_results (docId d)) ∧
    (weight = 1 → ∀ d ∈ fuseResults weight semantic_results keyword_results,
      simScoreD d = lastScore simScoreD semantic_results (docId d)) ∧
    (weight = 0 → ∀ d ∈ fuseResults weight semantic_results keyword_results,
      simScoreD d = lastScore kwScoreD keyword_results (docId d)) ∧
    (hybridCombine weight semantic_results keyword_results).Pairwise
      (fun a b => simScoreD b ≤ simScoreD a) := by
  have main : ∀ d ∈ fuseResults weight semantic_results keyword_results,
      simScoreD d = weight * lastScore simScoreD semantic_results (docId d) +
        (1 - weight) * lastScore kwScoreD keyword_results (docId d) := by
    intro d hd
    unfold fuseResults at hd
    obtain ⟨id, _, heq⟩ := List.mem_filterMap.mp hd
    obtain ⟨d0, hfind, rfl⟩ := Option.map_eq_some'.mp heq
    have hpd : (docId d0 == id) = true := by
      have hps := List.find?_some hfind
      simpa using hps
    have hid0 : docId d0 = id := eq_of_beq hpd
    rw [simScoreD_set, docId_set_scores, hid0]
  refine ⟨main, ?_, ?_, ?_⟩
  · intro hw d hd
    rw [main d hd, hw]
    ring
  · intro hw d hd
    rw [main d hd, hw]
    ring
  · exact stableSortDescBy_pairwise simScoreD _

/-- Closed instance of `C6_fusion`: the fused output on a concrete pair of
result lists is sorted descending by fused score. -/
theorem C6_witness :
    (hybridCombine 1 [fuseSemDoc] [fuseKwDoc]).Pairwise
      (fun a b => simScoreD b ≤ simScoreD a) :=
  (C6_fusion 1 [fuseSemDoc] [fuseKwDoc]).2.2.2

/-! ### Claim C8 -/

/-- Claim C8: when the reranker collaborator is unavailable (`self.reranker`
falsy) or its invocation raises, `_rerank_results` does not fail retrieval:
it returns the input candidates truncated to `top_k` in their pre-rerank
order, for every query, candidate list and `top_k`. -/
theorem C8_rerank_degrades (reranking_enabled reranker_available : Bool)
    (rerank_fn : Option (String → String → ℚ)) (query : String)
    (results : List Doc) (top_k : ℕ)
    (h : reranker_available = false ∨ rerank_fn = none) :
    rerankResults reranking_enabled reranker_available rerank_fn query results top_k =
      results.take top_k := by
  unfold rerankResults
  rcases h with h | h
  · subst h
    simp
  · subst h
    by_cases hcond :
        (!reranking_enabled || !reranker_available || results.isEmpty) = true
    · rw [if_pos hcond]
    · rw [if_neg hcond]

/-- Closed instance of `C8_rerank_degrades`: an unavailable reranker
passes the pre-rerank top-k through unchanged. -/
theorem C8_witness :
    rerankResults true false none "query" [fuseSemDoc, fuseKwDoc] 1 =
      [fuseSemDoc, fuseKwDoc].take 1 :=
  C8_rerank_degrades true false none "query" [fuseSemDoc, fuseKwDoc] 1 (Or.inl rfl)

/-! ### Claim C7 -/

theorem rerankResults_length (reranking_enabled reranker_available : Bool)
    (rerank_fn : Option (String → String → ℚ)) (query : String)
    (results : List Doc) (top_k : ℕ) :
    (rerankResults reranking_enabled reranker_available rerank_fn query
      results top_k).length = min top_k results.length := by
  unfold rerankResults
  split
  · exact List.length_take _ _
  · match rerank_fn with
    | none => exact List.length_take _ _
    | some f =>
      rw [List.length_take, stableSortDescBy_length, List.length_map]

theorem retrieveTail_length (reranking_enabled reranker_available : Bool)
    (rerank_fn : Option (String → String → ℚ)) (query : String)
    (top_k : ℕ) (similarity_threshold : ℚ) (results : List Doc) :
    (retrieveTail reranking_enabled reranker_available rerank_fn query top_k
      similarity_threshold results).length =
      min top_k (thresholdFilter similarity_threshold results).length := by
  unfold retrieveTail
  dsimp only
  split
  · exact rerankResults_length _ _ _ _ _ _
  · exact List.length_take _ _

theorem thresholdFilter_length_mono (t1 t2 : ℚ) (hle : t1 ≤ t2) (rs : List Doc) :
    (thresholdFilter t2 rs).length ≤ (thresholdFilter t1 rs).length := by
  unfold thresholdFilter
  by_cases h2 : 0 < t2
  · rw [if_pos h2]
    by_cases h1 : 0 < t1
    · rw [if_pos h1]
      refine (List.monotone_filter_right rs ?_).length_le
      intro d hd
      simp only [decide_eq_true_eq] at hd ⊢
      exact le_trans hle hd
    · rw [if_neg h1]
      exact (List.filter_sublist _).length_le
  · rw [if_neg h2]
    have h1 : ¬ 0 < t1 := fun hc => h2 (lt_of_lt_of_le hc hle)
    rw [if_neg h1]

/-- Claim C7: for a fixed query, store, scores and other parameters, the
result count of `retrieve` is antitone in `similarity_threshold`; and the
threshold-filter stage at threshold 0 drops no candidate. -/
theorem C7_threshold_monotone (reranking_enabled hybrid_search_enabled
    keyword_search_available reranker_available : Bool)
    (tokenize : String → List String) (stop_words : List String)
    (rerank_fn : Option (String → String → ℚ)) (store : VectorStore)
    (sem_scores : List ℚ) (query : String) (top_k : ℕ)
    (hybrid_search_weight : ℚ) (fd : Option (List (String × TopVal)))
    (t1 t2 : ℚ) (r1 r2 : List Doc) (hle : t1 ≤ t2)
    (h1 : retrieve reranking_enabled hybrid_search_enabled
      keyword_search_available reranker_available tokenize stop_words rerank_fn
      store sem_scores query top_k t1 hybrid_search_weight fd = .ok r1)
    (h2 : retrieve reranking_enabled hybrid_search_enabled
      keyword_search_available reranker_available tokenize stop_words rerank_fn
      store sem_scores query top_k t2 hybrid_search_weight fd = .ok r2) :
    r2.length ≤ r1.length ∧ ∀ rs : List Doc, thresholdFilter 0 rs = rs := by
  refine ⟨?_, fun rs => by unfold thresholdFilter; simp⟩
  simp only [retrieve] at h1 h2
  cases hsem : similaritySearch store sem_scores
      (if reranking_enabled = true then top_k * 3 else top_k) fd with
  | error e =>
    rw [hsem] at h1
    exact absurd h1 (by simp)
  | ok sems =>
    rw [hsem] at h1 h2
    obtain rfl : retrieveTail reranking_enabled reranker_available rerank_fn query
        top_k t1 (hybridStage hybrid_search_enabled keyword_search_available
          tokenize stop_words hybrid_search_weight query store.documents sems
          (if reranking_enabled = true then top_k * 3 else top_k)) = r1 := by
      injection h1
    obtain rfl : retrieveTail reranking_enabled reranker_available rerank_fn query
        top_k t2 (hybridStage hybrid_search_enabled keyword_search_available
          tokenize stop_words hybrid_search_weight query store.documents sems
          (if reranking_enabled = true then top_k * 3 else top_k)) = r2 := by
      injection h2
    rw [retrieveTail_length, retrieveTail_length]
    exact min_le_min (le_refl top_k) (thresholdFilter_length_mono t1 t2 hle _)

/-- Closed instance of `C7_threshold_monotone` on a concrete store and a
pair of thresholds 0 ≤ 1. -/
theorem C7_witness :
    ([setSimilarityScore (mkDoc "beta" "b.pdf" 1 [1, 0]) 1] : List Doc).length ≤
      ([setSimilarityScore (mkDoc "beta" "b.pdf" 1 [1, 0]) 1] : List Doc).length ∧
    thresholdFilter 0 [fuseSemDoc] = [fuseSemDoc] :=
  ⟨(C7_threshold_monotone false false false false spaceTokenize sampleStopWords
      none tieStore [1, 1] "query" 1 (7 / 10) none 0 1
      [setSimilarityScore (mkDoc "beta" "b.pdf" 1 [1, 0]) 1]
      [setSimilarityScore (mkDoc "beta" "b.pdf" 1 [1, 0]) 1]
      (by norm_num) (by decide) (by decide)).1,
   (C7_threshold_monotone false false false false spaceTokenize sampleStopWords
      none tieStore [1, 1] "query" 1 (7 / 10) none 0 1
      [setSimilarityScore (mkDoc "beta" "b.pdf" 1 [1, 0]) 1]
      [setSimilarityScore (mkDoc "beta" "b.pdf" 1 [1, 0]) 1]
      (by norm_num) (by decide) (by decide)).2 [fuseSemDoc]⟩
